import Mathlib

/-!
The ueberzugpp core: window correlation, overlay lifecycle, event loop, command executor

A shallow embedding of `src/src/display.cpp` and `src/src/application.cpp`.
Window ids (`xcb_window_t`) and process ids are numbers; `std::vector` is `List`;
`std::unordered_map` is an association list with at most one entry per key.
-/

namespace Ueberzugpp

/-! ## `std::unordered_map<int, xcb_window_t>` -/

/-- The map type `std::unordered_map<int, xcb_window_t>`: process id to window id. -/
abbrev PidWindowMap := List (Int × Nat)

namespace PidWindowMap

/-- The member `contains(key)`. -/
def contains (m : PidWindowMap) (key : Int) : Bool :=
  m.any (fun e => e.1 == key)

/-- The value stored under `key`, when there is one (`find`). -/
def find (m : PidWindowMap) (key : Int) : Option Nat :=
  match m with
  | [] => none
  | e :: rest => if e.1 = key then some e.2 else find rest key

/-- The assignment `m[key] = value`: overwrites the entry of `key` when there is one,
inserts a new entry otherwise. -/
def assign (m : PidWindowMap) (key : Int) (value : Nat) : PidWindowMap :=
  match m with
  | [] => [(key, value)]
  | e :: rest => if e.1 = key then (key, value) :: rest else e :: assign rest key value

/-- The read `m[key]` of `operator[]`: the stored value, or a value-initialised (zero)
window id when the key is absent. -/
def index (m : PidWindowMap) (key : Int) : Nat :=
  (m.find key).getD 0

/-- The keys of the map, one per entry. -/
def keys (m : PidWindowMap) : List Int :=
  m.map Prod.fst

end PidWindowMap

/-! ## Window tree enumeration (`display.cpp` 113-141) -/

/-- The method `Display::get_server_window_ids_helper`: `query_tree w` is the children list in
the reply to the tree query whose cookie is passed in (the query for window `w`).  The children
are pushed onto `windows` first, then the helper recurses into each child in order.  The C++
recursion is unbounded; `fuel` bounds its depth and `none` means the bound was hit. -/
def get_server_window_ids_helper (query_tree : Nat → List Nat) :
    Nat → List Nat → Nat → Option (List Nat)
  | 0, _, _ => none
  | fuel + 1, windows, w =>
    let children := query_tree w
    if children.length = 0 then some windows
    else
      children.foldlM (fun acc child => get_server_window_ids_helper query_tree fuel acc child)
        (windows ++ children)

/-- The method `Display::get_server_window_ids`: the helper run on the query for the screen's root
window, starting from an empty vector. -/
def get_server_window_ids (query_tree : Nat → List Nat) (fuel : Nat) (root : Nat) :
    Option (List Nat) :=
  get_server_window_ids_helper query_tree fuel [] root

/-- The window `w` is reachable from `r` by following children one or more times. -/
inductive Descendant (query_tree : Nat → List Nat) : Nat → Nat → Prop
  | child {r w : Nat} : w ∈ query_tree r → Descendant query_tree r w
  | step {r c w : Nat} : c ∈ query_tree r → Descendant query_tree c w →
      Descendant query_tree r w

/-! ## Window correlation (`display.cpp` 50-75) -/

/-- The method `Display::get_pid_window_map`: for each enumerated window in order, the pid
returned by `get_window_pid` is recorded with `res[pid] = window` unless it is zero (`if
(pid)`). -/
def get_pid_window_map (get_window_pid : Nat → Int) (windows : List Nat) : PidWindowMap :=
  windows.foldl
    (fun res window =>
      let pid := get_window_pid window
      if pid ≠ 0 then res.assign pid window else res)
    []

/-- The inner loop of `Display::get_parent_terminals` for one candidate: every pid of
`ppids` that is a key of `pid_window_map` is copied, with its window, into the local
`ppid_window_id_map`. -/
def ppid_window_id_map (pid_window_map : PidWindowMap) (ppids : List Int) : PidWindowMap :=
  ppids.foldl
    (fun acc ppid =>
      if pid_window_map.contains ppid then acc.assign ppid (pid_window_map.index ppid)
      else acc)
    []

/-- The method `Display::get_parent_terminals`: the candidates are the current pid, or the tmux
client pids when tmux is in use (`value()` throws when tmux reports none, which is `none` here);
one `ppid_window_id_map` is built per candidate from its parent pids (`util::get_parent_pids`,
declared in `util.hpp`).  The C++ function drops each map at the end of its loop iteration; they
are returned here, with their candidate, so that they can be observed. -/
def get_parent_terminals (get_pid : Int) (tmux_is_used : Bool)
    (tmux_get_client_pids : Option (List Int)) (get_parent_pids : Int → List Int)
    (pid_window_map : PidWindowMap) : Option (List (Int × PidWindowMap)) :=
  let client_pids := if tmux_is_used then tmux_get_client_pids else some [get_pid]
  client_pids.map (fun pids =>
    pids.map (fun pid => (pid, ppid_window_id_map pid_window_map (get_parent_pids pid))))

/-- The window `w` is the last one of `windows` whose pid is the non-zero pid `p`. -/
def LastOwned (get_window_pid : Nat → Int) (windows : List Nat) (p : Int) (w : Nat) : Prop :=
  p ≠ 0 ∧ ∃ pre post, windows = pre ++ w :: post ∧ get_window_pid w = p ∧
    ∀ w', w' ∈ post → get_window_pid w' ≠ p

/-! ## The X connection and the overlay window (`display.cpp` 77-111, 163-189) -/

/-- The fields of `xcb_expose_event_t` that the program reads or writes: `response_type`
(8 bits), `window`, and the 16-bit `x` and `y`.  An event of another kind is the same
record, of which only `response_type` is read. -/
structure Event where
  response_type : Nat
  window : Nat
  x : Nat
  y : Nat
  deriving DecidableEq, Repr

/-- The event code `XCB_EXPOSE` of `xcb/xproto.h`. -/
def XCB_EXPOSE : Nat := 12

/-- The requests the program queues on the connection. -/
inductive XRequest
  | create_window (wid parent : Nat) (x y width height : Int)
  | map_window (wid : Nat)
  | clear_area (wid : Nat) (x y width height : Int)
  | send_event (destination : Nat) (event : Event)
  deriving DecidableEq, Repr

/-- What the X server holds for this client: the windows the client created and has not
destroyed, which of them are mapped, which of them show drawn pixels, and the events sent
to the client through `SendEvent`. -/
structure XServer where
  windows : List Nat
  mapped : List Nat
  painted : List Nat
  events : List Event
  deriving DecidableEq, Repr

/-- The effect of one request on the server.  A request that names a window which does not
exist (or, for `create_window`, an id already in use) is answered with an error and changes
nothing.  `clear_area` erases the pixels of the window (a zero width and height mean the
rest of the window).  `send_event` delivers the event with the top bit of its
`response_type` set, which is how the server marks an event as sent by a client. -/
def XServer.apply (s : XServer) : XRequest → XServer
  | .create_window wid _ _ _ _ _ =>
    if wid ∈ s.windows then s else { s with windows := s.windows ++ [wid] }
  | .map_window wid =>
    if wid ∈ s.windows ∧ wid ∉ s.mapped then { s with mapped := s.mapped ++ [wid] } else s
  | .clear_area wid _ _ _ _ =>
    if wid ∈ s.windows then { s with painted := s.painted.filter (fun w => w ≠ wid) } else s
  | .send_event destination event =>
    if destination ∈ s.windows then
      { s with events := s.events ++
          [{ event with response_type := event.response_type ||| 0x80 }] }
    else s

/-- The client side of the connection (`xcb_connection_t`): the next resource id that
`xcb_generate_id` hands out, the requests queued and not yet sent, and the server. -/
structure Connection where
  next_id : Nat
  pending : List XRequest
  server : XServer
  deriving DecidableEq, Repr

/-- The call `xcb_generate_id`: a resource id not handed out before. -/
def xcb_generate_id (c : Connection) : Nat × Connection :=
  (c.next_id, { c with next_id := c.next_id + 1 })

/-- Queueing a request, as `xcb_create_window`, `xcb_map_window`, `xcb_clear_area` and
`xcb_send_event` do. -/
def xcb_request (c : Connection) (r : XRequest) : Connection :=
  { c with pending := c.pending ++ [r] }

/-- The call `xcb_flush`: the queued requests reach the server, in order. -/
def xcb_flush (c : Connection) : Connection :=
  { c with pending := [], server := c.pending.foldl XServer.apply c.server }

/-- The members of `Display` that the modelled methods use: the connection, the root window
of the screen, the overlay window id `window` and the held `image`. -/
structure Display (Img : Type) where
  connection : Connection
  root : Nat
  window : Nat
  image : Option Img

/-- The display after `Display::Display`: a connection on which nothing was created yet.
The constructor does not initialise `window`; `window` is the value the member happens to
hold. -/
def Display.init (Img : Type) (first_id root window : Nat) : Display Img :=
  { connection :=
      { next_id := first_id, pending := [],
        server := { windows := [], mapped := [], painted := [], events := [] } },
    root := root, window := window, image := none }

/-- The method `Display::create_window`: a new id is generated, a window with that id is created
under the root at the fixed geometry, the id is stored in `window`, the window is mapped and the
connection is flushed. -/
def Display.create_window {Img : Type} (d : Display Img) : Display Img :=
  let (wid, c) := xcb_generate_id d.connection
  let c := xcb_request c (.create_window wid d.root 800 50 500 500)
  let d := { d with connection := c, window := wid }
  let d := { d with connection := xcb_request d.connection (.map_window d.window) }
  { d with connection := xcb_flush d.connection }

/-- The method `Display::destroy_image`: the area of the overlay window is cleared, the held
image is released and the connection is flushed. -/
def Display.destroy_image {Img : Type} (d : Display Img) : Display Img :=
  let d := { d with connection := xcb_request d.connection (.clear_area d.window 0 0 0 0) }
  let d := { d with image := none }
  { d with connection := xcb_flush d.connection }

/-- The event that `Display::send_expose_event` fills in: an exposure event for the overlay
window, its 16-bit `x` and `y` set from the `int` arguments. -/
def Display.expose_event {Img : Type} (d : Display Img) (x y : Int) : Event :=
  { response_type := XCB_EXPOSE, window := d.window,
    x := (x % 65536).toNat, y := (y % 65536).toNat }

/-- The method `Display::send_expose_event`: the event is sent to the overlay window and the
connection is flushed. -/
def Display.send_expose_event {Img : Type} (d : Display Img) (x y : Int) : Display Img :=
  let e := d.expose_event x y
  let d := { d with connection := xcb_request d.connection (.send_event d.window e) }
  { d with connection := xcb_flush d.connection }

/-- The method `Display::trigger_redraw`. -/
def Display.trigger_redraw {Img : Type} (d : Display Img) : Display Img :=
  d.send_expose_event 0 0

/-- The method `Display::terminate_event_handler`. -/
def Display.terminate_event_handler {Img : Type} (d : Display Img) : Display Img :=
  d.send_expose_event 69 420

/-- The sentinel as the event loop receives it: the event of `terminate_event_handler` for
the overlay window `window`, marked by the server as sent by a client. -/
def sentinel_event (window : Nat) : Event :=
  { response_type := XCB_EXPOSE ||| 0x80, window := window, x := 69, y := 420 }

/-! ## The event loop (`display.cpp` 198-216) -/

/-- The test `event->response_type & ~0x80`: `~0x80` is the `int` with every bit but bit 7
set. -/
def strip_sent_bit (response_type : Nat) : Nat :=
  response_type &&& 0xFFFFFF7F

/-- The condition under which the body of the loop executes `return`: the event is an
exposure event and `expose->x == 69 && expose->y == 420`. -/
def is_stop_event (e : Event) : Bool :=
  strip_sent_bit e.response_type == XCB_EXPOSE && (e.x == 69 && e.y == 420)

/-- What `handle_events` has done when it has run through a list of events. -/
structure LoopResult where
  -- whether the function has returned; `false`: blocked in `xcb_wait_for_event`
  returned : Bool
  -- how many events the loop has taken from the connection
  consumed : Nat
  -- the positions in the stream of the events on which `image->draw` was called
  draws : List Nat
  deriving DecidableEq, Repr

/-- The method `Display::handle_events` run on the events the connection delivers, in order; `i`
is the position of the next event in the stream.  The held image is changed by the command
thread while the loop runs, so `image_set i` tells whether `image.get()` is non-null when the
event at position `i` is handled. -/
def handle_events (image_set : Nat → Bool) : List Event → Nat → LoopResult
  | [], i => { returned := false, consumed := i, draws := [] }
  | event :: rest, i =>
    if strip_sent_bit event.response_type = XCB_EXPOSE then
      if event.x = 69 ∧ event.y = 420 then
        { returned := true, consumed := i + 1, draws := [] }
      else
        let r := handle_events image_set rest (i + 1)
        if image_set i then { r with draws := i :: r.draws } else r
    else handle_events image_set rest (i + 1)

/-! ## The command executor (`application.cpp` 36-59) -/

/-- A parsed `nlohmann::json` value.  The signed and unsigned integer kinds are one
constructor; an object is its list of members, one per key. -/
inductive Json
  | null
  | boolean (b : Bool)
  | number_integer (n : Int)
  | number_float (q : Rat)
  | string (s : String)
  | array (elements : List Json)
  | object (members : List (String × Json))

/-- The exceptions of the JSON library that `execute` can meet, and any exception of
`Image::load`. -/
inductive Exn
  | parse_error
  | type_error (id : Nat)
  | load_error
  deriving DecidableEq, Repr

/-- A value of the C++ type `int`: the 32-bit two's complement value of an integer. -/
def to_int (z : Int) : Int :=
  (z + 2147483648) % 4294967296 - 2147483648

/-- The member under `key` of a list of object members. -/
def Json.member (key : String) : List (String × Json) → Option Json
  | [] => none
  | (k, v) :: rest => if k = key then some v else Json.member key rest

/-- The non-const `operator[]` with a string key: the member of an object, `null` for a key
the object does not have (the key is then inserted with a `null` value) and for a `null`
value (which is first turned into an empty object); on any other value the library throws
`type_error` 305. -/
def Json.index (j : Json) (key : String) : Except Exn Json :=
  match j with
  | .null => .ok .null
  | .object members => .ok ((Json.member key members).getD .null)
  | _ => .error (.type_error 305)

/-- The comparison `j == "text"` of a JSON value with a string literal. -/
def Json.eq_string (j : Json) (text : String) : Bool :=
  match j with
  | .string s => s == text
  | _ => false

/-- The conversion `static_cast<int>(j)`: a number or a boolean converts (a float is
truncated towards zero), any other value makes the library throw `type_error` 302. -/
def Json.get_int (j : Json) : Except Exn Int :=
  match j with
  | .number_integer n => .ok (to_int n)
  | .number_float q => .ok (to_int (Int.tdiv q.num q.den))
  | .boolean b => .ok (if b then 1 else 0)
  | _ => .error (.type_error 302)

/-- The conversion of a JSON value to `std::string` for the `path` argument of
`Image::load`: any value but a string makes the library throw `type_error` 302. -/
def Json.get_string (j : Json) : Except Exn String :=
  match j with
  | .string s => .ok s
  | _ => .error (.type_error 302)

/-- The calls `execute` makes on the canvas. -/
inductive CanvasCall (Img : Type)
  | create (x y max_width max_height : Int)
  | draw (image : Img)
  | clear
  deriving DecidableEq, Repr

/-- The state `Application::execute` works on: the font cell size of the terminal, the
lines written to the logger, the calls made on the canvas so far, and the held image. -/
structure Application (Img : Type) where
  font_width : Int
  font_height : Int
  logger : List String
  canvas : List (CanvasCall Img)
  image : Option Img

/-- How a call of `execute` ends: it returns, or an exception leaves it. -/
inductive Outcome
  | returned
  | raised (e : Exn)
  deriving DecidableEq, Repr

/-- The four `int`s computed at the start of the `add` branch, in the order of the source:
`max_width`, `max_height`, `x`, `y`, each the field converted to `int` and multiplied by the
font width or height in `int` arithmetic. -/
def add_geometry (j : Json) (font_width font_height : Int) :
    Except Exn (Int × Int × Int × Int) := do
  let max_width := to_int ((← (← j.index "max_width").get_int) * font_width)
  let max_height := to_int ((← (← j.index "max_height").get_int) * font_height)
  let x := to_int ((← (← j.index "x").get_int) * font_width)
  let y := to_int ((← (← j.index "y").get_int) * font_height)
  return (max_width, max_height, x, y)

/-- The method `Application::execute`.  `parse` is `json::parse` (`none` when it throws
`parse_error`), `dump` is `json::dump` and `load` is `Image::load`.  The result is how the call
ends and the state it leaves. -/
def Application.execute {Img : Type} (parse : String → Option Json) (dump : Json → String)
    (load : String → Int → Int → Except Exn Img) (cmd : String) (app : Application Img) :
    Outcome × Application Img :=
  match parse cmd with
  | none =>
    (.returned,
      { app with logger := app.logger ++ ["There was an error parsing the command."] })
  | some j =>
    let app := { app with logger := app.logger ++ ["=== Command received:\n" ++ dump j] }
    match j.index "action" with
    | .error e => (.raised e, app)
    | .ok action =>
      if action.eq_string "add" then
        match add_geometry j app.font_width app.font_height with
        | .error e => (.raised e, app)
        | .ok (max_width, max_height, x, y) =>
          let app := { app with canvas := app.canvas ++ [.create x y max_width max_height] }
          match (j.index "path").bind Json.get_string with
          | .error e => (.raised e, app)
          | .ok path =>
            match load path max_width max_height with
            | .error e => (.raised e, app)
            | .ok image =>
              let app := { app with image := some image }
              (.returned, { app with canvas := app.canvas ++ [.draw image] })
      else if action.eq_string "remove" then
        (.returned, { app with canvas := app.canvas ++ [.clear] })
      else
        (.returned, { app with logger := app.logger ++ ["=== Command not supported!"] })

/-! ## Concrete inputs used by the witnesses -/

/-- A window tree: the root 1 has the children 2 and 3, and 2 has the child 4. -/
def example_tree (w : Nat) : List Nat :=
  if w = 1 then [2, 3] else if w = 2 then [4] else []

/-- The height of each window of `example_tree`. -/
def example_rank (w : Nat) : Nat :=
  if w = 1 then 2 else if w = 2 then 1 else 0

/-- The text of an `add` command with `x` 2, `y` 1, `max_width` 10 and `max_height` 5. -/
def example_add_text : String :=
  "\x7b\"action\":\"add\",\"path\":\"a.png\",\"x\":2,\"y\":1,\"max_width\":10,\"max_height\":5\x7d"

/-- The value of `example_add_text`. -/
def example_add : Json :=
  .object [("action", .string "add"), ("path", .string "a.png"), ("x", .number_integer 2),
    ("y", .number_integer 1), ("max_width", .number_integer 10),
    ("max_height", .number_integer 5)]

/-- The text of an `add` command like `example_add_text` but with `max_width` 268435456. -/
def example_wide_text : String :=
  "\x7b\"action\":\"add\",\"path\":\"a.png\",\"x\":2,\"y\":1,\"max_width\":268435456,\"max_height\":5\x7d"

/-- The value of `example_wide_text`. -/
def example_wide_add : Json :=
  .object [("action", .string "add"), ("path", .string "a.png"), ("x", .number_integer 2),
    ("y", .number_integer 1), ("max_width", .number_integer 268435456),
    ("max_height", .number_integer 5)]

/-- A stand-in for `json::parse` that knows five command texts: the two `add` commands
above, a command with the action `unknown`, an `add` command with no other field, and the
empty array.  It takes any other text as invalid JSON. -/
def example_parse (cmd : String) : Option Json :=
  if cmd = example_add_text then some example_add
  else if cmd = example_wide_text then some example_wide_add
  else if cmd = "\x7b\"action\":\"unknown\"\x7d" then
    some (.object [("action", .string "unknown")])
  else if cmd = "\x7b\"action\":\"add\"\x7d" then some (.object [("action", .string "add")])
  else if cmd = "[]" then some (.array [])
  else none

/-- A stand-in for `Image::load` that returns the path as the loaded image. -/
def example_load (path : String) (_max_width _max_height : Int) : Except Exn String :=
  .ok path

/-- An application on a terminal with an 8x16 font cell, with nothing logged or drawn. -/
def example_app : Application String :=
  { font_width := 8, font_height := 16, logger := [], canvas := [], image := none }

/-! ## Window tree enumeration -/

theorem Descendant.rank_lt {query_tree : Nat → List Nat} {rank : Nat → Nat}
    (hrank : ∀ w c, c ∈ query_tree w → rank c < rank w) {r w : Nat}
    (h : Descendant query_tree r w) : rank w < rank r := by
  induction h with
  | child hc => exact hrank _ _ hc
  | step hc _ ih => exact lt_trans ih (hrank _ _ hc)

theorem Descendant.iff_children (query_tree : Nat → List Nat) (r w : Nat) :
    Descendant query_tree r w ↔
      w ∈ query_tree r ∨ ∃ c, c ∈ query_tree r ∧ Descendant query_tree c w := by
  constructor
  · intro h
    cases h with
    | child hc => exact Or.inl hc
    | step hc hd => exact Or.inr ⟨_, hc, hd⟩
  · rintro (hc | ⟨c, hc, hd⟩)
    · exact Descendant.child hc
    · exact Descendant.step hc hd

/-- Folding a function that appends the descendants of each window appends the descendants
of all of them. -/
theorem foldlM_helper_spec (query_tree : Nat → List Nat)
    (f : List Nat → Nat → Option (List Nat)) (cs : List Nat)
    (hf : ∀ c, c ∈ cs → ∀ acc, ∃ ds, f acc c = some (acc ++ ds) ∧
      ∀ x, x ∈ ds ↔ Descendant query_tree c x) :
    ∀ acc, ∃ ds, cs.foldlM f acc = some (acc ++ ds) ∧
      ∀ x, x ∈ ds ↔ ∃ c, c ∈ cs ∧ Descendant query_tree c x := by
  induction cs with
  | nil =>
    intro acc
    exact ⟨[], by simp, by simp⟩
  | cons c cs ih =>
    intro acc
    obtain ⟨d1, h1, hd1⟩ := hf c (List.mem_cons_self _ _) acc
    obtain ⟨d2, h2, hd2⟩ := ih (fun c' hc' => hf c' (List.mem_cons_of_mem _ hc')) (acc ++ d1)
    refine ⟨d1 ++ d2, ?_, ?_⟩
    · rw [List.foldlM_cons, h1]
      simp only [Option.bind_eq_bind, Option.some_bind]
      rw [h2, List.append_assoc]
    · intro x
      simp only [List.mem_append, hd1, hd2, List.mem_cons, exists_eq_or_imp]

/-- With fuel above the height of the queried window, the helper appends to `windows` a list
holding exactly the descendants of that window. -/
theorem get_server_window_ids_helper_spec (query_tree : Nat → List Nat) (rank : Nat → Nat)
    (hrank : ∀ w c, c ∈ query_tree w → rank c < rank w) :
    ∀ fuel w windows, rank w < fuel →
      ∃ ds, get_server_window_ids_helper query_tree fuel windows w = some (windows ++ ds) ∧
        ∀ x, x ∈ ds ↔ Descendant query_tree w x := by
  intro fuel
  induction fuel with
  | zero => intro w windows h; exact absurd h (Nat.not_lt_zero _)
  | succ fuel ih =>
    intro w windows hw
    unfold get_server_window_ids_helper
    by_cases hlen : (query_tree w).length = 0
    · have hnil : query_tree w = [] := List.length_eq_zero.mp hlen
      refine ⟨[], by simp [hlen], ?_⟩
      intro x
      rw [Descendant.iff_children, hnil]
      simp
    · simp only [hlen, if_false]
      obtain ⟨ds, hds, hmem⟩ := foldlM_helper_spec query_tree
        (fun acc child => get_server_window_ids_helper query_tree fuel acc child) (query_tree w)
        (fun c hc acc => ih c acc (by have := hrank w c hc; omega))
        (windows ++ query_tree w)
      refine ⟨query_tree w ++ ds, ?_, ?_⟩
      · rw [hds, List.append_assoc]
      · intro x
        rw [Descendant.iff_children, List.mem_append, hmem]

/-- C1: on a finite window tree (children strictly decrease a height function `rank`) and
with recursion depth above the height of the root, `Display::get_server_window_ids` returns
a list that contains every window reachable from the root by following children
transitively and that does not contain the root. -/
theorem get_server_window_ids_descendants (query_tree : Nat → List Nat) (rank : Nat → Nat)
    (hrank : ∀ w c, c ∈ query_tree w → rank c < rank w) (root fuel : Nat)
    (hfuel : rank root < fuel) :
    ∃ windows, get_server_window_ids query_tree fuel root = some windows ∧
      (∀ w, Descendant query_tree root w → w ∈ windows) ∧ root ∉ windows := by
  obtain ⟨ds, hds, hmem⟩ :=
    get_server_window_ids_helper_spec query_tree rank hrank fuel root [] hfuel
  refine ⟨ds, ?_, ?_, ?_⟩
  · simpa [get_server_window_ids] using hds
  · intro w hw
    exact (hmem w).mpr hw
  · intro hroot
    exact lt_irrefl _ (Descendant.rank_lt hrank ((hmem root).mp hroot))

/-! ## The pid-to-window map -/

namespace PidWindowMap

theorem mem_keys_assign (m : PidWindowMap) (k : Int) (v : Nat) (p : Int) :
    p ∈ (m.assign k v).keys ↔ p = k ∨ p ∈ m.keys := by
  induction m with
  | nil => simp [assign, keys]
  | cons e rest ih =>
    unfold assign
    by_cases h : e.1 = k
    · simp only [h, if_true, keys, List.map_cons, List.mem_cons]
      constructor
      · rintro (hp | hp)
        · exact Or.inl hp
        · exact Or.inr (Or.inr hp)
      · rintro (hp | hp | hp)
        · exact Or.inl hp
        · exact Or.inl hp
        · exact Or.inr hp
    · simp only [h, if_false, keys, List.map_cons, List.mem_cons]
      have ih' : p ∈ List.map Prod.fst (assign rest k v) ↔ p = k ∨ p ∈ List.map Prod.fst rest := ih
      rw [ih']
      tauto

theorem nodup_keys_assign (m : PidWindowMap) (k : Int) (v : Nat) (h : m.keys.Nodup) :
    (m.assign k v).keys.Nodup := by
  induction m with
  | nil => simp [assign, keys]
  | cons e rest ih =>
    have hcons : e.1 ∉ keys rest ∧ (keys rest).Nodup := by
      simpa [keys] using h
    unfold assign
    by_cases hk : e.1 = k
    · simp only [hk, if_true]
      have : keys ((k, v) :: rest) = k :: keys rest := rfl
      rw [this, List.nodup_cons]
      exact ⟨hk ▸ hcons.1, hcons.2⟩
    · simp only [hk, if_false]
      have : keys (e :: assign rest k v) = e.1 :: keys (assign rest k v) := rfl
      rw [this, List.nodup_cons]
      refine ⟨?_, ih hcons.2⟩
      rw [mem_keys_assign]
      rintro (h1 | h1)
      · exact hk h1
      · exact hcons.1 h1

theorem mem_assign (m : PidWindowMap) (k : Int) (v : Nat) (h : m.keys.Nodup) (p : Int) (w : Nat) :
    (p, w) ∈ m.assign k v ↔ (p = k ∧ w = v) ∨ (p ≠ k ∧ (p, w) ∈ m) := by
  induction m with
  | nil => simp [assign]
  | cons e rest ih =>
    have hcons : e.1 ∉ keys rest ∧ (keys rest).Nodup := by
      simpa [keys] using h
    unfold assign
    by_cases hk : e.1 = k
    · simp only [hk, if_true, List.mem_cons, Prod.mk.injEq]
      constructor
      · rintro (hp | hp)
        · exact Or.inl hp
        · refine Or.inr ⟨?_, Or.inr hp⟩
          rintro rfl
          exact hcons.1 (hk ▸ List.mem_map_of_mem Prod.fst hp)
      · rintro (hp | ⟨hne, hp | hp⟩)
        · exact Or.inl hp
        · exact absurd (hk ▸ congrArg Prod.fst hp) hne
        · exact Or.inr hp
    · simp only [hk, if_false, List.mem_cons]
      rw [ih hcons.2]
      constructor
      · rintro (hp | hp | hp)
        · refine Or.inr ⟨?_, Or.inl hp⟩
          rintro rfl
          exact hk (congrArg Prod.fst hp).symm
        · exact Or.inl hp
        · exact Or.inr ⟨hp.1, Or.inr hp.2⟩
      · rintro (hp | ⟨hne, hp | hp⟩)
        · exact Or.inr (Or.inl hp)
        · exact Or.inl hp
        · exact Or.inr (Or.inr ⟨hne, hp⟩)

theorem find_eq_some_iff (m : PidWindowMap) (h : m.keys.Nodup) (p : Int) (w : Nat) :
    m.find p = some w ↔ (p, w) ∈ m := by
  induction m with
  | nil => simp [find]
  | cons e rest ih =>
    have hcons : e.1 ∉ keys rest ∧ (keys rest).Nodup := by
      simpa [keys] using h
    unfold find
    by_cases hk : e.1 = p
    · simp only [hk, if_true, Option.some.injEq, List.mem_cons]
      constructor
      · intro hw
        exact Or.inl (by rw [← hk, ← hw])
      · rintro (hp | hp)
        · exact (congrArg Prod.snd hp).symm
        · exact absurd (hk ▸ List.mem_map_of_mem Prod.fst hp) hcons.1
    · simp only [hk, if_false, List.mem_cons]
      rw [ih hcons.2]
      constructor
      · exact Or.inr
      · rintro (hp | hp)
        · exact absurd (congrArg Prod.fst hp).symm hk
        · exact hp

theorem contains_iff (m : PidWindowMap) (p : Int) : m.contains p = true ↔ p ∈ m.keys := by
  unfold contains keys
  rw [List.any_eq_true, List.mem_map]
  constructor
  · rintro ⟨e, he, hp⟩
    exact ⟨e, he, by simpa using hp⟩
  · rintro ⟨e, he, hp⟩
    exact ⟨e, he, by simpa using hp⟩

end PidWindowMap

theorem LastOwned.concat_iff (get_window_pid : Nat → Int) (ws : List Nat) (x : Nat) (p : Int)
    (w : Nat) :
    LastOwned get_window_pid (ws ++ [x]) p w ↔
      (p ≠ 0 ∧ get_window_pid x = p ∧ w = x) ∨
        (get_window_pid x ≠ p ∧ LastOwned get_window_pid ws p w) := by
  constructor
  · rintro ⟨hp, pre, post, hsplit, hpid, hlast⟩
    rcases List.eq_nil_or_concat post with hpost | ⟨post', y, hpost⟩
    · subst hpost
      have h := List.append_inj_right' (by simpa using hsplit : ws ++ [x] = pre ++ [w]) rfl
      have hx : x = w := by simpa using h
      subst hx
      exact Or.inl ⟨hp, hpid, rfl⟩
    · subst hpost
      have h1 : ws ++ [x] = (pre ++ w :: post') ++ [y] := by
        rw [hsplit]; simp
      have hy : x = y := by simpa using List.append_inj_right' h1 rfl
      have hws : ws = pre ++ w :: post' := List.append_inj_left' h1 rfl
      subst hy
      refine Or.inr ⟨hlast x (by simp), hp, pre, post', hws, hpid, ?_⟩
      intro w' hw'
      exact hlast w' (by simp [hw'])
  · rintro (⟨hp, hpid, rfl⟩ | ⟨hne, hp, pre, post, hsplit, hpid, hlast⟩)
    · exact ⟨hp, ws, [], rfl, hpid, by simp⟩
    · refine ⟨hp, pre, post ++ [x], by rw [hsplit]; simp, hpid, ?_⟩
      intro w' hw'
      rcases List.mem_append.mp hw' with h | h
      · exact hlast w' h
      · have : w' = x := by simpa using h
        rw [this]; exact hne

/-- The fold of `get_pid_window_map` keeps one entry per key, its keys are the non-zero pids
seen so far and each key holds the last window seen with that pid. -/
theorem get_pid_window_map_inv (get_window_pid : Nat → Int) (windows : List Nat) :
    (get_pid_window_map get_window_pid windows).keys.Nodup ∧
      (∀ p, p ∈ (get_pid_window_map get_window_pid windows).keys ↔
        p ≠ 0 ∧ ∃ w, w ∈ windows ∧ get_window_pid w = p) ∧
      (∀ p w, (p, w) ∈ get_pid_window_map get_window_pid windows ↔
        LastOwned get_window_pid windows p w) := by
  induction windows using List.reverseRecOn with
  | nil =>
    refine ⟨by simp [get_pid_window_map, PidWindowMap.keys], ?_, ?_⟩
    · intro p; simp [get_pid_window_map, PidWindowMap.keys]
    · intro p w
      simp [get_pid_window_map, LastOwned]
  | append_singleton ws x ih =>
    obtain ⟨hnd, hkeys, hmem⟩ := ih
    have hfold : get_pid_window_map get_window_pid (ws ++ [x]) =
        if get_window_pid x ≠ 0 then
          (get_pid_window_map get_window_pid ws).assign (get_window_pid x) x
        else get_pid_window_map get_window_pid ws := by
      simp [get_pid_window_map, List.foldl_append]
    rw [hfold]
    by_cases hx : get_window_pid x = 0
    · simp only [hx, ne_eq, not_true_eq_false, if_false]
      refine ⟨hnd, ?_, ?_⟩
      · intro p
        rw [hkeys]
        constructor
        · rintro ⟨hp, w, hw, hpw⟩
          exact ⟨hp, w, by simp [hw], hpw⟩
        · rintro ⟨hp, w, hw, hpw⟩
          rcases List.mem_append.mp hw with h | h
          · exact ⟨hp, w, h, hpw⟩
          · have : w = x := by simpa using h
            subst this
            exact absurd (hpw ▸ hx) hp
      · intro p w
        rw [hmem, LastOwned.concat_iff]
        constructor
        · intro h
          refine Or.inr ⟨?_, h⟩
          rw [hx]; exact fun h0 => h.1 h0.symm
        · rintro (⟨hp, hpx, _⟩ | ⟨_, h⟩)
          · exact absurd (hpx ▸ hx) hp
          · exact h
    · simp only [ne_eq, hx, not_false_eq_true, if_true]
      refine ⟨PidWindowMap.nodup_keys_assign _ _ _ hnd, ?_, ?_⟩
      · intro p
        rw [PidWindowMap.mem_keys_assign, hkeys]
        constructor
        · rintro (rfl | ⟨hp, w, hw, hpw⟩)
          · exact ⟨hx, x, by simp, rfl⟩
          · exact ⟨hp, w, by simp [hw], hpw⟩
        · rintro ⟨hp, w, hw, hpw⟩
          rcases List.mem_append.mp hw with h | h
          · exact Or.inr ⟨hp, w, h, hpw⟩
          · have : w = x := by simpa using h
            subst this
            exact Or.inl hpw.symm
      · intro p w
        rw [PidWindowMap.mem_assign _ _ _ hnd, hmem, LastOwned.concat_iff]
        constructor
        · rintro (⟨rfl, rfl⟩ | ⟨hne, h⟩)
          · exact Or.inl ⟨hx, rfl, rfl⟩
          · exact Or.inr ⟨fun h' => hne h'.symm, h⟩
        · rintro (⟨_, hpx, rfl⟩ | ⟨hne, h⟩)
          · exact Or.inl ⟨hpx.symm, rfl⟩
          · exact Or.inr ⟨fun h' => hne h'.symm, h⟩

/-! ## Correlation of a parent-pid chain with the map -/

theorem PidWindowMap.contains_iff_find (m : PidWindowMap) (p : Int) :
    m.contains p = true ↔ ∃ w, m.find p = some w := by
  induction m with
  | nil => simp [PidWindowMap.contains, PidWindowMap.find]
  | cons e rest ih =>
    have hc : PidWindowMap.contains (e :: rest) p =
        (e.1 == p || PidWindowMap.contains rest p) := by
      simp [PidWindowMap.contains]
    rw [hc]
    unfold PidWindowMap.find
    by_cases hk : e.1 = p
    · simp [hk]
    · simp only [hk, if_false, ← ih]
      simp [hk]

/-- The fold of `ppid_window_id_map` keeps one entry per key and holds exactly the pids of
the chain seen so far that are keys of the map, each with the window the map gives it. -/
theorem ppid_window_id_map_inv (pid_window_map : PidWindowMap) (ppids : List Int) :
    (ppid_window_id_map pid_window_map ppids).keys.Nodup ∧
      ∀ p w, (p, w) ∈ ppid_window_id_map pid_window_map ppids ↔
        p ∈ ppids ∧ pid_window_map.find p = some w := by
  induction ppids using List.reverseRecOn with
  | nil =>
    refine ⟨by simp [ppid_window_id_map, PidWindowMap.keys], ?_⟩
    intro p w
    simp [ppid_window_id_map]
  | append_singleton chain x ih =>
    obtain ⟨hnd, hmem⟩ := ih
    have hfold : ppid_window_id_map pid_window_map (chain ++ [x]) =
        if pid_window_map.contains x then
          (ppid_window_id_map pid_window_map chain).assign x (pid_window_map.index x)
        else ppid_window_id_map pid_window_map chain := by
      simp [ppid_window_id_map, List.foldl_append]
    rw [hfold]
    by_cases hx : pid_window_map.contains x = true
    · obtain ⟨v, hv⟩ := (PidWindowMap.contains_iff_find _ _).mp hx
      have hidx : pid_window_map.index x = v := by simp [PidWindowMap.index, hv]
      rw [if_pos hx, hidx]
      refine ⟨PidWindowMap.nodup_keys_assign _ _ _ hnd, ?_⟩
      intro p w
      rw [PidWindowMap.mem_assign _ _ _ hnd, hmem]
      constructor
      · rintro (⟨rfl, rfl⟩ | ⟨_, hp, hf⟩)
        · exact ⟨by simp, hv⟩
        · exact ⟨by simp [hp], hf⟩
      · rintro ⟨hp, hf⟩
        by_cases hpx : p = x
        · subst hpx
          rw [hv] at hf
          exact Or.inl ⟨rfl, (Option.some.inj hf).symm⟩
        · refine Or.inr ⟨hpx, ?_, hf⟩
          rcases List.mem_append.mp hp with h | h
          · exact h
          · exact absurd (by simpa using h) hpx
    · have hnone : ∀ w, pid_window_map.find x ≠ some w := by
        intro w hw
        exact hx ((PidWindowMap.contains_iff_find _ _).mpr ⟨w, hw⟩)
      rw [if_neg hx]
      refine ⟨hnd, ?_⟩
      intro p w
      rw [hmem]
      constructor
      · rintro ⟨hp, hf⟩
        exact ⟨by simp [hp], hf⟩
      · rintro ⟨hp, hf⟩
        rcases List.mem_append.mp hp with h | h
        · exact ⟨h, hf⟩
        · have : p = x := by simpa using h
          subst this
          exact absurd hf (hnone w)

/-! ## Claims on the window correlation -/

theorem example_rank_decreases :
    ∀ w c, c ∈ example_tree w → example_rank c < example_rank w := by
  intro w c hc
  unfold example_tree at hc
  by_cases h1 : w = 1
  · subst h1
    simp at hc
    rcases hc with rfl | rfl <;> decide
  · by_cases h2 : w = 2
    · subst h2
      simp at hc
      subst hc
      decide
    · simp [h1, h2] at hc

/-- C1: on the tree 1 -> (2 -> 4), 3 with recursion depth 3 the enumeration from the root 1
returns a list with every descendant and without the root. -/
theorem get_server_window_ids_descendants_witness :
    ∃ windows, get_server_window_ids example_tree 3 1 = some windows ∧
      (∀ w, Descendant example_tree 1 w → w ∈ windows) ∧ 1 ∉ windows :=
  get_server_window_ids_descendants example_tree example_rank example_rank_decreases 1 3
    (by decide)

/-- C2: the map returned by `Display::get_pid_window_map` has one entry per key; its keys
are exactly the non-zero pids (`if (pid)`) that `get_window_pid` reports for some enumerated
window; and the window stored under a pid is the last window of the enumeration with that
pid. -/
theorem get_pid_window_map_last_write_wins (get_window_pid : Nat → Int) (windows : List Nat) :
    (get_pid_window_map get_window_pid windows).keys.Nodup ∧
      (∀ p, p ∈ (get_pid_window_map get_window_pid windows).keys ↔
        p ≠ 0 ∧ ∃ w, w ∈ windows ∧ get_window_pid w = p) ∧
      (∀ p w, (get_pid_window_map get_window_pid windows).find p = some w ↔
        LastOwned get_window_pid windows p w) := by
  obtain ⟨hnd, hkeys, hmem⟩ := get_pid_window_map_inv get_window_pid windows
  refine ⟨hnd, hkeys, ?_⟩
  intro p w
  rw [PidWindowMap.find_eq_some_iff _ hnd, hmem]

/-- C3 as stated fails: for a candidate whose parent pids are `[5, 4, 3, 2, 1]` and the map
`{3: 101, 1: 102}`, `Display::get_parent_terminals` does not single out the nearest ancestor
3 with window 101; what it builds also holds the ancestor 1 with window 102. -/
theorem get_parent_terminals_keeps_distant_match :
    get_parent_terminals 6 false none (fun pid => if pid = 6 then [5, 4, 3, 2, 1] else [])
        [(3, 101), (1, 102)] = some [(6, [(3, 101), (1, 102)])] ∧
      ppid_window_id_map [(3, 101), (1, 102)] [5, 4, 3, 2, 1] ≠ [(3, 101)] ∧
      (ppid_window_id_map [(3, 101), (1, 102)] [5, 4, 3, 2, 1]).find 1 = some 102 := by
  decide

/-- C3 amended: for every map and every chain of parent pids, the correspondence built by the
inner loop of `Display::get_parent_terminals` has one entry per key and holds a pid with a
window exactly when the pid is in the chain and the map gives it that window; with the chain
`[5, 4, 3, 2, 1]` and the map `{3: 101, 1: 102}` it holds both 3 with 101 and 1 with 102. -/
theorem ppid_window_id_map_records_every_match :
    (∀ (pid_window_map : PidWindowMap) (ppids : List Int),
      (ppid_window_id_map pid_window_map ppids).keys.Nodup ∧
        ∀ p w, (ppid_window_id_map pid_window_map ppids).find p = some w ↔
          p ∈ ppids ∧ pid_window_map.find p = some w) ∧
      ppid_window_id_map [(3, 101), (1, 102)] [5, 4, 3, 2, 1] = [(3, 101), (1, 102)] := by
  refine ⟨?_, by decide⟩
  intro pid_window_map ppids
  obtain ⟨hnd, hmem⟩ := ppid_window_id_map_inv pid_window_map ppids
  refine ⟨hnd, ?_⟩
  intro p w
  rw [PidWindowMap.find_eq_some_iff _ hnd, hmem]

/-! ## The command executor -/

theorem to_int_of_range (z : Int) (h : -2147483648 ≤ z ∧ z < 2147483648) : to_int z = z := by
  unfold to_int
  omega

theorem to_int_range (z : Int) : -2147483648 ≤ to_int z ∧ to_int z < 2147483648 := by
  unfold to_int
  omega

theorem to_int_mul (a b : Int) : to_int (to_int a * b) = to_int (a * b) := by
  have h : to_int a = a - 4294967296 * ((a + 2147483648) / 4294967296) := by
    unfold to_int
    have := Int.emod_def (a + 2147483648) 4294967296
    omega
  unfold to_int at h ⊢
  rw [h]
  have e : (a - 4294967296 * ((a + 2147483648) / 4294967296)) * b + 2147483648 =
      (a * b + 2147483648) + 4294967296 * (-(((a + 2147483648) / 4294967296) * b)) := by
    ring
  rw [e, Int.add_mul_emod_self_left]

/-- The geometry computed for an object with integer fields: each product, as an `int`. -/
theorem add_geometry_of_fields (members : List (String × Json)) (font_width font_height : Int)
    (max_width max_height x y : Int)
    (hw : Json.member "max_width" members = some (.number_integer max_width))
    (hh : Json.member "max_height" members = some (.number_integer max_height))
    (hx : Json.member "x" members = some (.number_integer x))
    (hy : Json.member "y" members = some (.number_integer y)) :
    add_geometry (.object members) font_width font_height =
      .ok (to_int (max_width * font_width), to_int (max_height * font_height),
        to_int (x * font_width), to_int (y * font_height)) := by
  simp only [add_geometry, Json.index, hw, hh, hx, hy, Option.getD_some, Json.get_int,
    to_int_mul, bind, Except.bind, pure, Except.pure]

/-- What `execute` does with an `add` command once the geometry is computed: `create` is the
first call it makes on the canvas. -/
theorem execute_add_creates {Img : Type} (parse : String → Option Json) (dump : Json → String)
    (load : String → Int → Int → Except Exn Img) (cmd : String) (app : Application Img)
    (members : List (String × Json)) (g : Int × Int × Int × Int)
    (hparse : parse cmd = some (.object members))
    (haction : Json.member "action" members = some (.string "add"))
    (hg : add_geometry (.object members) app.font_width app.font_height = .ok g) :
    ∃ rest, (Application.execute parse dump load cmd app).2.canvas =
      app.canvas ++ CanvasCall.create g.2.2.1 g.2.2.2 g.1 g.2.1 :: rest := by
  obtain ⟨mw, mh, x, y⟩ := g
  simp only [Application.execute, hparse, Json.index, haction, Option.getD_some,
    Json.eq_string, beq_self_eq_true, if_true, hg]
  cases hpath : (Except.ok ((Json.member "path" members).getD Json.null) :
      Except Exn Json).bind Json.get_string with
  | error e => exact ⟨[], by simp⟩
  | ok path =>
    cases hload : load path mw mh with
    | error e => exact ⟨[], by simp [hload]⟩
    | ok image => exact ⟨[.draw image], by simp [hload]⟩

/-! ## Claims on the command executor -/

/-- C4 as stated fails: an `add` command with `max_width` 268435456 on a terminal with an
8x16 font cell requests an overlay of pixel width -2147483648, not 268435456 * 8: the width
is an `int` and the product does not fit. -/
theorem execute_add_width_wraps :
    (Application.execute example_parse (fun _ => "") example_load example_wide_text example_app).2.canvas =
        [.create 16 16 (-2147483648) 80, .draw "a.png"] ∧
      (268435456 : Int) * example_app.font_width ≠ -2147483648 := by
  decide

/-- C4 amended: for an `add` command whose `max_width`, `max_height`, `x` and `y` are
integers and for a font cell size such that the four products fit an `int`,
`Application::execute` requests the creation of the overlay at the pixel offset
`(x * font_width, y * font_height)` with the pixel width `max_width * font_width` and the
pixel height `max_height * font_height`. -/
theorem execute_add_geometry {Img : Type} (parse : String → Option Json) (dump : Json → String)
    (load : String → Int → Int → Except Exn Img) (cmd : String) (app : Application Img)
    (members : List (String × Json)) (max_width max_height x y : Int)
    (hparse : parse cmd = some (.object members))
    (haction : Json.member "action" members = some (.string "add"))
    (hw : Json.member "max_width" members = some (.number_integer max_width))
    (hh : Json.member "max_height" members = some (.number_integer max_height))
    (hx : Json.member "x" members = some (.number_integer x))
    (hy : Json.member "y" members = some (.number_integer y))
    (hrw : -2147483648 ≤ max_width * app.font_width ∧ max_width * app.font_width < 2147483648)
    (hrh : -2147483648 ≤ max_height * app.font_height ∧
      max_height * app.font_height < 2147483648)
    (hrx : -2147483648 ≤ x * app.font_width ∧ x * app.font_width < 2147483648)
    (hry : -2147483648 ≤ y * app.font_height ∧ y * app.font_height < 2147483648) :
    ∃ rest, (Application.execute parse dump load cmd app).2.canvas =
      app.canvas ++ CanvasCall.create (x * app.font_width) (y * app.font_height)
        (max_width * app.font_width) (max_height * app.font_height) :: rest := by
  have hg := add_geometry_of_fields members app.font_width app.font_height max_width
    max_height x y hw hh hx hy
  rw [to_int_of_range _ hrw, to_int_of_range _ hrh, to_int_of_range _ hrx,
    to_int_of_range _ hry] at hg
  exact execute_add_creates parse dump load cmd app members _ hparse haction hg

/-- C4: `max_width` 10, `max_height` 5, `x` 2, `y` 1 with an 8x16 font cell request an
overlay of width 80 and height 80 at the offset (16, 16). -/
theorem execute_add_geometry_witness :
    ∃ rest, (Application.execute example_parse (fun _ => "") example_load example_add_text
        example_app).2.canvas = [] ++ CanvasCall.create 16 16 80 80 :: rest :=
  execute_add_geometry example_parse (fun _ => "") example_load example_add_text example_app
    [("action", .string "add"), ("path", .string "a.png"), ("x", .number_integer 2),
      ("y", .number_integer 1), ("max_width", .number_integer 10),
      ("max_height", .number_integer 5)]
    10 5 2 1 (by rfl) (by rfl) (by rfl) (by rfl) (by rfl) (by rfl)
    (by decide) (by decide) (by decide) (by decide)

/-- C8 fails on the code: for the command text `[]`, valid JSON that is not an object,
indexing with `"action"` raises `type_error` 305, and for an `add` command without
`max_width` the conversion to `int` raises `type_error` 302; `execute` catches only
`parse_error`, so both leave `execute`, before any call on the canvas. -/
theorem execute_lets_type_error_escape :
    Application.execute example_parse (fun _ => "") example_load "[]" example_app =
        (.raised (.type_error 305), { example_app with logger := ["=== Command received:\n"] }) ∧
      Application.execute example_parse (fun _ => "") example_load
          "\x7b\"action\":\"add\"\x7d" example_app =
        (.raised (.type_error 302), { example_app with logger := ["=== Command received:\n"] }) := by
  constructor <;> rfl

/-! ## The event loop -/

theorem is_stop_event_iff (e : Event) :
    is_stop_event e = true ↔
      strip_sent_bit e.response_type = XCB_EXPOSE ∧ (e.x = 69 ∧ e.y = 420) := by
  simp [is_stop_event]

theorem handle_events_cons_stop (image_set : Nat → Bool) (e : Event) (rest : List Event)
    (i : Nat) (h : is_stop_event e = true) :
    handle_events image_set (e :: rest) i = { returned := true, consumed := i + 1, draws := [] } := by
  obtain ⟨h1, h2⟩ := (is_stop_event_iff e).mp h
  simp [handle_events, h1, h2]

theorem handle_events_cons (image_set : Nat → Bool) (e : Event) (rest : List Event) (i : Nat) :
    handle_events image_set (e :: rest) i =
      if strip_sent_bit e.response_type = XCB_EXPOSE then
        if e.x = 69 ∧ e.y = 420 then { returned := true, consumed := i + 1, draws := [] }
        else
          if image_set i then
            { handle_events image_set rest (i + 1) with
              draws := i :: (handle_events image_set rest (i + 1)).draws }
          else handle_events image_set rest (i + 1)
      else handle_events image_set rest (i + 1) := by
  rw [handle_events]

theorem handle_events_cons_continue (image_set : Nat → Bool) (e : Event) (rest : List Event)
    (i : Nat) (h : is_stop_event e = false) :
    (handle_events image_set (e :: rest) i).returned =
        (handle_events image_set rest (i + 1)).returned ∧
      (handle_events image_set (e :: rest) i).consumed =
        (handle_events image_set rest (i + 1)).consumed ∧
      ∀ j, j ∈ (handle_events image_set (e :: rest) i).draws →
        j = i ∨ j ∈ (handle_events image_set rest (i + 1)).draws := by
  have hn : ¬ (strip_sent_bit e.response_type = XCB_EXPOSE ∧ (e.x = 69 ∧ e.y = 420)) := by
    rw [← is_stop_event_iff, h]; simp
  rw [handle_events_cons]
  by_cases h1 : strip_sent_bit e.response_type = XCB_EXPOSE
  · have h2 : ¬ (e.x = 69 ∧ e.y = 420) := fun h2 => hn ⟨h1, h2⟩
    rw [if_pos h1, if_neg h2]
    by_cases h3 : image_set i = true
    · rw [if_pos h3]
      exact ⟨rfl, rfl, fun j hj => by simpa using hj⟩
    · rw [if_neg h3]
      exact ⟨rfl, rfl, fun j hj => Or.inr hj⟩
  · rw [if_neg h1]
    exact ⟨rfl, rfl, fun j hj => Or.inr hj⟩

/-- The loop takes events up to and including the first one that passes its stop test, it
returns exactly when there is such an event, and it draws only for earlier events. -/
theorem handle_events_spec (image_set : Nat → Bool) (events : List Event) :
    ∀ i, ((handle_events image_set events i).returned = true ↔
        ∃ e, e ∈ events ∧ is_stop_event e = true) ∧
      (handle_events image_set events i).consumed =
        i + min (events.findIdx is_stop_event + 1) events.length ∧
      ∀ j, j ∈ (handle_events image_set events i).draws →
        i ≤ j ∧ j < i + events.findIdx is_stop_event := by
  induction events with
  | nil => intro i; simp [handle_events]
  | cons e rest ih =>
    intro i
    by_cases h : is_stop_event e = true
    · rw [handle_events_cons_stop image_set e rest i h]
      refine ⟨⟨fun _ => ⟨e, by simp, h⟩, fun _ => rfl⟩, ?_, by simp⟩
      simp [List.findIdx_cons, h]
    · have hf : is_stop_event e = false := by simpa using h
      obtain ⟨hr, hc, hd⟩ := handle_events_cons_continue image_set e rest i hf
      obtain ⟨ihr, ihc, ihd⟩ := ih (i + 1)
      have hidx : (e :: rest).findIdx is_stop_event = rest.findIdx is_stop_event + 1 := by
        simp [List.findIdx_cons, hf]
      refine ⟨?_, ?_, ?_⟩
      · rw [hr, ihr]
        constructor
        · rintro ⟨s, hs, hstop⟩
          exact ⟨s, by simp [hs], hstop⟩
        · rintro ⟨s, hs, hstop⟩
          rcases List.mem_cons.mp hs with rfl | hs'
          · exact absurd hstop h
          · exact ⟨s, hs', hstop⟩
      · rw [hc, ihc, hidx, List.length_cons]
        omega
      · intro j hj
        rw [hidx]
        rcases hd j hj with rfl | hj'
        · omega
        · have := ihd j hj'
          omega

theorem findIdx_stop_le_indexOf (events : List Event) (s : Event) (hs : is_stop_event s = true)
    (hmem : s ∈ events) : events.findIdx is_stop_event ≤ events.indexOf s := by
  induction events with
  | nil => simp at hmem
  | cons e rest ih =>
    by_cases h : is_stop_event e = true
    · simp [List.findIdx_cons, h]
    · have hf : is_stop_event e = false := by simpa using h
      have hne : e ≠ s := by
        rintro rfl
        exact h hs
      have hrest : s ∈ rest := by
        rcases List.mem_cons.mp hmem with h' | h'
        · exact absurd h'.symm hne
        · exact h'
      rw [List.indexOf_cons_ne _ hne]
      simp only [List.findIdx_cons, hf, cond_false]
      exact Nat.succ_le_succ (ih hrest)

/-- The first event that passes the stop test is the event `s` itself exactly when no event
before the first occurrence of `s` passes the test. -/
theorem findIdx_stop_eq_indexOf_iff (events : List Event) (s : Event)
    (hs : is_stop_event s = true) :
    events.findIdx is_stop_event = events.indexOf s ↔
      ∀ e, e ∈ events.take (events.indexOf s) → is_stop_event e = false := by
  induction events with
  | nil => simp
  | cons e rest ih =>
    by_cases hes : e = s
    · subst hes
      simp [List.findIdx_cons, hs]
    · rw [List.indexOf_cons_ne _ hes]
      by_cases h : is_stop_event e = true
      · simp only [List.findIdx_cons, h, cond_true, List.take_succ_cons, List.mem_cons]
        constructor
        · intro h0
          exact absurd h0 (by omega)
        · intro hall
          have := hall e (Or.inl rfl)
          rw [h] at this
          exact absurd this (by simp)
      · have hf : is_stop_event e = false := by simpa using h
        simp only [List.findIdx_cons, hf, cond_false, List.take_succ_cons, List.mem_cons]
        constructor
        · intro h0 x hx
          rcases hx with rfl | hx
          · exact hf
          · exact ih.mp (by omega) x hx
        · intro hall
          have := ih.mpr (fun x hx => hall x (Or.inr hx))
          omega

theorem is_stop_event_sentinel (window : Nat) : is_stop_event (sentinel_event window) = true := by
  simp only [is_stop_event, sentinel_event, strip_sent_bit, XCB_EXPOSE]
  decide

/-- The call of `terminate_event_handler` on a display whose overlay window exists and whose
requests are all sent puts the sentinel at the end of the events delivered to the client. -/
theorem terminate_event_handler_delivers_sentinel {Img : Type} (d : Display Img)
    (hpending : d.connection.pending = []) (hwindow : d.window ∈ d.connection.server.windows) :
    d.terminate_event_handler.connection.server.events =
      d.connection.server.events ++ [sentinel_event d.window] := by
  simp [Display.terminate_event_handler, Display.send_expose_event, Display.expose_event,
    xcb_request, xcb_flush, hpending, XServer.apply, hwindow, sentinel_event]

/-! ## Claims on the event loop -/

/-- C5 as stated fails: with the overlay window 5, on the stream made of a server-generated
exposure event at (69, 420), which is not the sentinel, followed by the sentinel sent by
`terminate_event_handler`, `Display::handle_events` returns on the first event, one iteration
before the one that would receive the sentinel. -/
theorem handle_events_returns_before_sentinel :
    (⟨XCB_EXPOSE, 5, 69, 420⟩ : Event) ≠ sentinel_event 5 ∧
      [(⟨XCB_EXPOSE, 5, 69, 420⟩ : Event), sentinel_event 5].indexOf (sentinel_event 5) = 1 ∧
      handle_events (fun _ => true) [⟨XCB_EXPOSE, 5, 69, 420⟩, sentinel_event 5] 0 =
        { returned := true, consumed := 1, draws := [] } := by
  decide

/-- C5 amended: when the stream of events holds the sentinel sent by
`terminate_event_handler`, `Display::handle_events` returns, and it does so no later than the
iteration that receives the first sentinel: it returns on the first exposure event with `x`
69 and `y` 420, which is the first sentinel exactly when no earlier event of the stream is
such an exposure event.  No event after the first sentinel is taken, and every redraw the
loop performs is for an event that precedes the first sentinel. -/
theorem handle_events_returns_by_first_sentinel (image_set : Nat → Bool) (window : Nat)
    (events : List Event) (h : sentinel_event window ∈ events) :
    (handle_events image_set events 0).returned = true ∧
      (handle_events image_set events 0).consumed = events.findIdx is_stop_event + 1 ∧
      (handle_events image_set events 0).consumed ≤
        events.indexOf (sentinel_event window) + 1 ∧
      ((handle_events image_set events 0).consumed =
          events.indexOf (sentinel_event window) + 1 ↔
        ∀ e, e ∈ events.take (events.indexOf (sentinel_event window)) →
          ¬ (strip_sent_bit e.response_type = XCB_EXPOSE ∧ e.x = 69 ∧ e.y = 420)) ∧
      ∀ j, j ∈ (handle_events image_set events 0).draws →
        j < events.findIdx is_stop_event ∧ j < events.indexOf (sentinel_event window) := by
  obtain ⟨hr, hc, hd⟩ := handle_events_spec image_set events 0
  have hex : ∃ e, e ∈ events ∧ is_stop_event e = true :=
    ⟨_, h, is_stop_event_sentinel window⟩
  have hlt : events.findIdx is_stop_event < events.length := by
    obtain ⟨e, he, hs⟩ := hex
    exact List.findIdx_lt_length_of_exists ⟨e, he, hs⟩
  have hle := findIdx_stop_le_indexOf events _ (is_stop_event_sentinel window) h
  have hcons : (handle_events image_set events 0).consumed =
      events.findIdx is_stop_event + 1 := by
    rw [hc]; omega
  have hiff := findIdx_stop_eq_indexOf_iff events _ (is_stop_event_sentinel window)
  refine ⟨hr.mpr hex, hcons, by omega, ?_, ?_⟩
  · rw [hcons]
    constructor
    · intro heq e he hstop
      have hfalse := hiff.mp (by omega) e he
      rw [(is_stop_event_iff e).mpr hstop] at hfalse
      exact absurd hfalse (by simp)
    · intro hall
      have := hiff.mpr (fun e he => by
        cases hs : is_stop_event e with
        | false => rfl
        | true => exact absurd ((is_stop_event_iff e).mp hs) (hall e he))
      omega
  · intro j hj
    have := hd j hj
    omega

/-- C5 amended: on an exposure event at (0, 0), the sentinel for window 5 and another
exposure event, the loop draws for the first event, returns on the second, which is the
sentinel, and never takes the third. -/
theorem handle_events_returns_by_first_sentinel_witness :
    sentinel_event 5 ∈ [(⟨12, 5, 0, 0⟩ : Event), sentinel_event 5, ⟨12, 5, 0, 0⟩] ∧
      handle_events (fun _ => true) [⟨12, 5, 0, 0⟩, sentinel_event 5, ⟨12, 5, 0, 0⟩] 0 =
        { returned := true, consumed := 2, draws := [0] } ∧
      (handle_events (fun _ => true)
          [⟨12, 5, 0, 0⟩, sentinel_event 5, ⟨12, 5, 0, 0⟩] 0).consumed ≤
        [(⟨12, 5, 0, 0⟩ : Event), sentinel_event 5, ⟨12, 5, 0, 0⟩].indexOf
          (sentinel_event 5) + 1 :=
  ⟨by decide, by decide,
    (handle_events_returns_by_first_sentinel (fun _ => true) 5
      [⟨12, 5, 0, 0⟩, sentinel_event 5, ⟨12, 5, 0, 0⟩] (by decide)).2.2.1⟩

/-- C6 as stated fails: with the overlay window 5 on a 1920x1080 screen, the loop returns on
a server-generated exposure event for the overlay whose coordinates (69, 420) lie inside the
screen, and it returns on an exposure event with these coordinates addressed to the window
7. -/
theorem handle_events_returns_on_genuine_exposure :
    ((69 : Nat) < 1920 ∧ (420 : Nat) < 1080 ∧
      (⟨XCB_EXPOSE, 5, 69, 420⟩ : Event) ≠ sentinel_event 5 ∧
      handle_events (fun _ => true) [⟨XCB_EXPOSE, 5, 69, 420⟩] 0 =
        { returned := true, consumed := 1, draws := [] }) ∧
      ((7 : Nat) ≠ 5 ∧
        handle_events (fun _ => true) [⟨XCB_EXPOSE ||| 0x80, 7, 69, 420⟩] 0 =
          { returned := true, consumed := 1, draws := [] }) := by
  decide

/-- C6 amended: `Display::handle_events` returns exactly when the stream holds an exposure
event (response type `XCB_EXPOSE` once the sent-by-client bit is masked off) whose `x` is 69
and whose `y` is 420, whichever window the event names and whether the server generated it
or a client sent it; it returns on the first such event, and when there is none it takes
every event and goes on waiting. -/
theorem handle_events_returns_iff_payload (image_set : Nat → Bool) (events : List Event) :
    ((handle_events image_set events 0).returned = true ↔
        ∃ e, e ∈ events ∧ strip_sent_bit e.response_type = XCB_EXPOSE ∧ e.x = 69 ∧ e.y = 420) ∧
      (handle_events image_set events 0).consumed =
        min (events.findIdx (fun e => decide (strip_sent_bit e.response_type = XCB_EXPOSE ∧
          e.x = 69 ∧ e.y = 420)) + 1) events.length := by
  obtain ⟨hr, hc, _⟩ := handle_events_spec image_set events 0
  have hfun : (fun e => decide (strip_sent_bit e.response_type = XCB_EXPOSE ∧
      e.x = 69 ∧ e.y = 420)) = is_stop_event := by
    funext e
    rw [Bool.eq_iff_iff]
    simp [is_stop_event_iff]
  refine ⟨?_, ?_⟩
  · rw [hr]
    constructor
    · rintro ⟨e, he, hs⟩
      exact ⟨e, he, (is_stop_event_iff e).mp hs⟩
    · rintro ⟨e, he, hs⟩
      exact ⟨e, he, (is_stop_event_iff e).mpr hs⟩
  · rw [hc, hfun]; omega

/-! ## Claims on the overlay window -/

/-- The state after `n` calls of `create_window` on a fresh display. -/
theorem create_window_iterate {Img : Type} (first_id root window : Nat) (n : Nat) :
    (Display.create_window^[n] (Display.init Img first_id root window)).connection =
      { next_id := first_id + n, pending := [],
        server := { windows := List.range' first_id n, mapped := List.range' first_id n,
                    painted := [], events := [] } } := by
  induction n with
  | zero => simp [Display.init]
  | succ n ih =>
    rw [Function.iterate_succ_apply']
    have hnot : first_id + n ∉ List.range' first_id n := by
      simp [List.mem_range'_1]
    have hcreate : ∀ parent x y w h,
        ({ windows := List.range' first_id n, mapped := List.range' first_id n, painted := [],
            events := [] } : XServer).apply (.create_window (first_id + n) parent x y w h) =
          { windows := List.range' first_id n ++ [first_id + n],
            mapped := List.range' first_id n, painted := [], events := [] } := by
      intro parent x y w h
      simp [XServer.apply, hnot]
    have hmap :
        ({ windows := List.range' first_id n ++ [first_id + n],
            mapped := List.range' first_id n, painted := [], events := [] } : XServer).apply
            (.map_window (first_id + n)) =
          { windows := List.range' first_id n ++ [first_id + n],
            mapped := List.range' first_id n ++ [first_id + n], painted := [],
            events := [] } := by
      simp [XServer.apply, hnot]
    simp only [Display.create_window, xcb_generate_id, xcb_request, xcb_flush, ih,
      List.nil_append, List.cons_append, List.foldl_cons, List.foldl_nil, hcreate, hmap,
      List.range'_concat, Nat.add_assoc, Nat.one_mul]

/-- C9 as stated fails: two calls of `Display::create_window` on a fresh display leave two
overlay windows created and not destroyed, 100 and 101; the second call destroys nothing. -/
theorem create_window_twice_leaves_two_windows :
    (Display.init Unit 100 1 0).create_window.create_window.connection.server.windows =
        [100, 101] ∧
      (Display.init Unit 100 1 0).create_window.create_window.window = 101 := by
  decide

/-- C9 amended: `Display` keeps one overlay window id, that of the latest call of
`create_window`, and `create_window` destroys nothing: after `n + 1` calls on a fresh
display the `n + 1` windows created are all live and mapped, with distinct ids, and `window`
is the last of them. -/
theorem create_window_keeps_every_window {Img : Type} (first_id root window : Nat) (n : Nat) :
    (Display.create_window^[n + 1]
        (Display.init Img first_id root window)).connection.server.windows =
        List.range' first_id (n + 1) ∧
      (Display.create_window^[n + 1]
        (Display.init Img first_id root window)).connection.server.mapped =
        List.range' first_id (n + 1) ∧
      (Display.create_window^[n + 1] (Display.init Img first_id root window)).window =
        first_id + n := by
  rw [create_window_iterate]
  refine ⟨rfl, rfl, ?_⟩
  rw [Function.iterate_succ_apply']
  simp [Display.create_window, xcb_generate_id, create_window_iterate]

theorem XServer.apply_clear_area_twice (s : XServer) (wid : Nat) (x y width height : Int) :
    (s.apply (.clear_area wid x y width height)).apply (.clear_area wid x y width height) =
      s.apply (.clear_area wid x y width height) := by
  by_cases h : wid ∈ s.windows
  · simp [XServer.apply, h, List.filter_filter]
  · simp [XServer.apply, h]

theorem XServer.apply_clear_area_windows (s : XServer) (wid : Nat) (x y width height : Int) :
    (s.apply (.clear_area wid x y width height)).windows = s.windows ∧
      (s.apply (.clear_area wid x y width height)).mapped = s.mapped := by
  by_cases h : wid ∈ s.windows
  · simp [XServer.apply, h]
  · simp [XServer.apply, h]

/-- C10: for every display state, a second `Display::destroy_image` right after a first
leaves the state the first one left; in that state no image is held, the overlay window id is
the one before the calls, and the server has the windows, mapped as they were, that it has
when the requests queued before the call are sent. -/
theorem destroy_image_idempotent {Img : Type} (d : Display Img) :
    d.destroy_image.destroy_image = d.destroy_image ∧
      d.destroy_image.image = none ∧
      d.destroy_image.window = d.window ∧
      d.destroy_image.connection.server.windows = (xcb_flush d.connection).server.windows ∧
      d.destroy_image.connection.server.mapped = (xcb_flush d.connection).server.mapped := by
  refine ⟨?_, rfl, rfl, ?_, ?_⟩
  · simp [Display.destroy_image, xcb_request, xcb_flush, List.foldl_append,
      XServer.apply_clear_area_twice]
  · simp [Display.destroy_image, xcb_request, xcb_flush, List.foldl_append,
      (XServer.apply_clear_area_windows _ _ _ _ _ _).1]
  · simp [Display.destroy_image, xcb_request, xcb_flush, List.foldl_append,
      (XServer.apply_clear_area_windows _ _ _ _ _ _).2]

end Ueberzugpp
